import Mathlib

/-!
# Verification of the mineflare HTTP-over-TCP proxy fabric

Shallow embedding of the proxy core shared between the Container Side
(CS, the in-container proxy server in the Bun script) and the Edge Side
(ES, the Durable Object in `src/container.ts`).  Byte strings are
modelled as `List Nat` (each element one octet); machine arithmetic that
the sources perform on 32-bit little-endian length prefixes is modelled
with explicit `% 256` decompositions.
-/

namespace Mineflare

/-- Little-endian `u32` of the first four bytes of a buffer, as both
`DataView.getUint32(0, true)` (CS) and `Buffer.readUInt32LE(0)` (ES)
compute it.  Only ever applied to buffers of length at least 4. -/
def readU32LE (l : List Nat) : Nat :=
  l.getD 0 0 + 256 * l.getD 1 0 + 65536 * l.getD 2 0 + 16777216 * l.getD 3 0

/-- Little-endian 4-byte encoding of a length, as `writeUInt32LE` /
`DataView.setUint32(0, n, true)` produce it. -/
def u32le (n : Nat) : List Nat :=
  [n % 256, n / 256 % 256, n / 65536 % 256, n / 16777216 % 256]

/-- One control frame on the wire: `[u32 LE length][payload bytes]`. -/
def encodeFrame (p : List Nat) : List Nat :=
  u32le p.length ++ p

/-- A back-to-back sequence of frames. -/
def encodeFrames (ps : List (List Nat)) : List Nat :=
  (ps.map encodeFrame).flatten

/-- A buffer from which the framing loop can extract no complete frame:
either the 4-byte length prefix has not fully arrived, or the prefix
announces more bytes than are present. -/
def incompleteFrame (l : List Nat) : Prop :=
  l.length < 4 ∨ l.length < 4 + readU32LE l

instance (l : List Nat) : Decidable (incompleteFrame l) := by
  unfold incompleteFrame
  infer_instance

theorem readU32LE_append (l m : List Nat) (h : 4 ≤ l.length) :
    readU32LE (l ++ m) = readU32LE l := by
  unfold readU32LE
  rw [List.getD_append _ _ _ _ (by omega), List.getD_append _ _ _ _ (by omega),
    List.getD_append _ _ _ _ (by omega), List.getD_append _ _ _ _ (by omega)]

theorem readU32LE_u32le (n : Nat) (l : List Nat) (h : n < 4294967296) :
    readU32LE (u32le n ++ l) = n := by
  have h4 : 4 ≤ (u32le n).length := by simp [u32le]
  rw [readU32LE_append _ _ h4]
  unfold readU32LE u32le
  simp [List.getD]
  omega

end Mineflare

namespace Mineflare.ES

/-!
## ES control-frame reader (`readControlMessages`, src/container.ts)

The ES keeps a rolling `controlBuffer`; on each TCP arrival it appends
the bytes and then repeatedly slices complete `[u32 LE len][payload]`
frames off the front.  `extractFrames` is the inner `while (true)` loop:
it returns the payloads of all complete frames, in order, together with
the leftover buffer.  (JSON decoding of each payload is abstracted: a
dispatched frame is represented by its payload bytes.)
-/

def extractFrames (buf : List Nat) : List (List Nat) × List Nat :=
  if h1 : buf.length < 4 then ([], buf)
  else if h2 : buf.length < 4 + Mineflare.readU32LE buf then ([], buf)
  else
    have : (buf.drop (4 + Mineflare.readU32LE buf)).length < buf.length := by
      simp only [List.length_drop]
      omega
    ((buf.drop 4).take (Mineflare.readU32LE buf) ::
        (extractFrames (buf.drop (4 + Mineflare.readU32LE buf))).1,
      (extractFrames (buf.drop (4 + Mineflare.readU32LE buf))).2)
termination_by buf.length

/-- Processing one `read()` arrival: append to the rolling buffer, then
extract every complete frame (state is `(buffer, dispatched so far)`). -/
def esFeed (st : List Nat × List (List Nat)) (arrival : List Nat) :
    List Nat × List (List Nat) :=
  let buf := st.1 ++ arrival
  let res := extractFrames buf
  (res.2, st.2 ++ res.1)

/-- The whole read loop over a sequence of TCP arrivals, starting from
an empty rolling buffer. -/
def esRun (arrivals : List (List Nat)) : List Nat × List (List Nat) :=
  arrivals.foldl esFeed ([], [])

theorem extractFrames_of_incomplete (buf : List Nat)
    (h : Mineflare.incompleteFrame buf) : extractFrames buf = ([], buf) := by
  unfold extractFrames
  rcases h with h | h
  · simp [h]
  · by_cases h4 : buf.length < 4
    · simp [h4]
    · simp [h4, h]

theorem extractFrames_rest_incomplete (buf : List Nat) :
    Mineflare.incompleteFrame (extractFrames buf).2 := by
  induction buf using extractFrames.induct with
  | case1 buf h =>
    rw [extractFrames]
    simp only [dif_pos h]
    exact Or.inl h
  | case2 buf h1 h2 =>
    rw [extractFrames]
    simp only [dif_neg h1, dif_pos h2]
    exact Or.inr h2
  | case3 buf h1 h2 hterm ih =>
    rw [extractFrames]
    simp only [dif_neg h1, dif_neg h2]
    exact ih

theorem extractFrames_complete (buf : List Nat)
    (h1 : ¬ buf.length < 4) (h2 : ¬ buf.length < 4 + Mineflare.readU32LE buf) :
    extractFrames buf =
      ((buf.drop 4).take (Mineflare.readU32LE buf) ::
          (extractFrames (buf.drop (4 + Mineflare.readU32LE buf))).1,
        (extractFrames (buf.drop (4 + Mineflare.readU32LE buf))).2) := by
  rw [extractFrames]
  simp only [dif_neg h1, dif_neg h2]

/-- Appending freshly arrived bytes to a buffer lets the extraction loop
recover exactly the frames it would already have produced, followed by
whatever the leftover-plus-new bytes yield: the rolling buffer discipline
is compositional across TCP reads. -/
theorem extractFrames_append (buf more : List Nat) :
    extractFrames (buf ++ more) =
      ((extractFrames buf).1 ++ (extractFrames ((extractFrames buf).2 ++ more)).1,
        (extractFrames ((extractFrames buf).2 ++ more)).2) := by
  induction buf using extractFrames.induct with
  | case1 buf h =>
    rw [extractFrames_of_incomplete buf (Or.inl h)]
    simp
  | case2 buf h1 h2 =>
    rw [extractFrames_of_incomplete buf (Or.inr h2)]
    simp
  | case3 buf h1 h2 hterm ih =>
    have hb4 : 4 ≤ buf.length := Nat.le_of_not_lt h1
    have hlen : Mineflare.readU32LE (buf ++ more) = Mineflare.readU32LE buf :=
      Mineflare.readU32LE_append buf more hb4
    have hbm1 : ¬ (buf ++ more).length < 4 := by
      simp only [List.length_append]
      omega
    have hbm2 : ¬ (buf ++ more).length < 4 + Mineflare.readU32LE (buf ++ more) := by
      rw [hlen]
      simp only [List.length_append]
      omega
    have hdrop4 : (buf ++ more).drop 4 = buf.drop 4 ++ more :=
      List.drop_append_of_le_length (by omega)
    have htake : (buf.drop 4 ++ more).take (Mineflare.readU32LE buf)
        = (buf.drop 4).take (Mineflare.readU32LE buf) :=
      List.take_append_of_le_length (by simp only [List.length_drop]; omega)
    have hdropR : (buf ++ more).drop (4 + Mineflare.readU32LE buf)
        = buf.drop (4 + Mineflare.readU32LE buf) ++ more :=
      List.drop_append_of_le_length (by omega)
    rw [extractFrames_complete (buf ++ more) hbm1 hbm2,
      extractFrames_complete buf h1 h2]
    simp only [hlen, hdrop4, htake, hdropR, ih]
    simp

/-- Feeding any sequence of arrivals from any incomplete carried-over
buffer state is the same as extracting from the concatenation. -/
theorem esFeed_foldl (arrivals : List (List Nat)) :
    ∀ b out, Mineflare.incompleteFrame b →
      arrivals.foldl esFeed (b, out) =
        ((extractFrames (b ++ arrivals.flatten)).2,
          out ++ (extractFrames (b ++ arrivals.flatten)).1) := by
  induction arrivals with
  | nil =>
    intro b out hb
    simp [extractFrames_of_incomplete b hb]
  | cons a as ih =>
    intro b out hb
    have hstep : esFeed (b, out) a = ((extractFrames (b ++ a)).2, out ++ (extractFrames (b ++ a)).1) := rfl
    rw [List.foldl_cons, hstep, ih _ _ (extractFrames_rest_incomplete (b ++ a))]
    have hassoc : b ++ (a :: as).flatten = (b ++ a) ++ as.flatten := by
      simp
    rw [hassoc, extractFrames_append (b ++ a) as.flatten]
    simp

/-- The ES read loop over a whole sequence of TCP arrivals dispatches
exactly the complete frames of the concatenated byte stream, in order,
and retains the incomplete remainder in its rolling buffer. -/
theorem esRun_eq_extract (arrivals : List (List Nat)) :
    esRun arrivals =
      ((extractFrames arrivals.flatten).2, (extractFrames arrivals.flatten).1) := by
  unfold esRun
  rw [esFeed_foldl arrivals [] [] (Or.inl (by simp))]
  simp

/-- Extraction on a well-framed stream: encoded frames followed by an
incomplete remainder are recovered exactly. -/
theorem extractFrames_encodeFrames (ps : List (List Nat)) (r : List Nat)
    (hps : ∀ p ∈ ps, p.length < 4294967296)
    (hr : Mineflare.incompleteFrame r) :
    extractFrames (Mineflare.encodeFrames ps ++ r) = (ps, r) := by
  induction ps with
  | nil =>
    simp only [Mineflare.encodeFrames, List.map_nil, List.flatten_nil, List.nil_append]
    exact extractFrames_of_incomplete r hr
  | cons p ps ih =>
    have hp : p.length < 4294967296 := hps p (by simp)
    have hbuf : Mineflare.encodeFrames (p :: ps) ++ r
        = Mineflare.u32le p.length ++ (p ++ (Mineflare.encodeFrames ps ++ r)) := by
      simp [Mineflare.encodeFrames, Mineflare.encodeFrame]
    rw [hbuf]
    have hread : Mineflare.readU32LE
        (Mineflare.u32le p.length ++ (p ++ (Mineflare.encodeFrames ps ++ r)))
        = p.length := Mineflare.readU32LE_u32le p.length _ hp
    have hlen4 : (Mineflare.u32le p.length).length = 4 := by simp [Mineflare.u32le]
    have hlentot : (Mineflare.u32le p.length ++ (p ++ (Mineflare.encodeFrames ps ++ r))).length
        = 4 + (p.length + (Mineflare.encodeFrames ps ++ r).length) := by
      simp only [List.length_append, hlen4]
    have h1 : ¬ (Mineflare.u32le p.length ++ (p ++ (Mineflare.encodeFrames ps ++ r))).length < 4 := by
      rw [hlentot]
      omega
    have h2 : ¬ (Mineflare.u32le p.length ++ (p ++ (Mineflare.encodeFrames ps ++ r))).length
        < 4 + Mineflare.readU32LE (Mineflare.u32le p.length ++ (p ++ (Mineflare.encodeFrames ps ++ r))) := by
      rw [hlentot, hread]
      omega
    rw [extractFrames_complete _ h1 h2]
    have hdrop4 : (Mineflare.u32le p.length ++ (p ++ (Mineflare.encodeFrames ps ++ r))).drop 4
        = p ++ (Mineflare.encodeFrames ps ++ r) := by
      rw [← hlen4, List.drop_left]
    have hdropR : (Mineflare.u32le p.length ++ (p ++ (Mineflare.encodeFrames ps ++ r))).drop
          (4 + p.length)
        = Mineflare.encodeFrames ps ++ r := by
      rw [show (4 : Nat) + p.length = ((Mineflare.u32le p.length ++ p).length) by simp [hlen4]]
      rw [show Mineflare.u32le p.length ++ (p ++ (Mineflare.encodeFrames ps ++ r))
          = (Mineflare.u32le p.length ++ p) ++ (Mineflare.encodeFrames ps ++ r) by simp]
      exact List.drop_left _ _
    rw [hread, hdrop4, hdropR, List.take_left]
    rw [ih (fun q hq => hps q (by simp [hq]))]

end Mineflare.ES

namespace Mineflare.CS

/-!
## CS control-message parser (`parseControlMessage`, Bun proxy script)

Unlike the ES, the CS `data` callback feeds each TCP read directly to
`parseControlMessage`: there is no rolling buffer.  The parser decodes at
most the first length-prefixed message of the read and returns `null`
when the read is shorter than the announced frame.  The source guards on
the length of the UTF-8-decoded text of the read, which coincides with
the byte length on the inputs considered below (the decoded length of a
`[u32 LE length][ASCII payload]` frame is never smaller than 4); the
guard is therefore modelled on the byte length.  JSON decoding of the
payload is abstracted: the parsed message is its payload bytes. -/
def parseControlMessage (data : List Nat) : Option (List Nat) :=
  if data.length < 4 then none
  else
    if data.length < 4 + Mineflare.readU32LE data then none
    else some ((data.drop 4).take (Mineflare.readU32LE data))

/-- Messages the CS dispatches for one TCP read: the parsed message, if
any (`handleControlMessage` runs only when the parse succeeded). -/
def csReadFrames (data : List Nat) : List (List Nat) :=
  (parseControlMessage data).toList

/-- Messages the CS dispatches over a sequence of TCP reads. -/
def csRun (arrivals : List (List Nat)) : List (List Nat) :=
  (arrivals.map csReadFrames).flatten

end Mineflare.CS

namespace Mineflare

/--
C1 (counterexample). The claim asserts that *both* peers' frame readers
keep a per-connection rolling buffer and dispatch every complete frame
present after each arrival.  The CS reader does not: a single TCP read
carrying the two complete frames `[len=1]['A']` and `[len=1]['B']`
dispatches only the first frame (the ES extraction loop on the same
bytes yields both), and the frame `[len=1]['A']` split across the two
reads `[1,0,0]` and `[0,65]` is never dispatched at all.
-/
theorem c1_cs_reader_counterexample :
    (ES.extractFrames [1, 0, 0, 0, 65, 1, 0, 0, 0, 66]).1 = [[65], [66]]
    ∧ CS.csRun [[1, 0, 0, 0, 65, 1, 0, 0, 0, 66]] = [[65]]
    ∧ CS.csRun [[1, 0, 0], [0, 65]] = [] := by
  refine ⟨?_, by decide, by decide⟩
  have h := ES.extractFrames_encodeFrames [[65], [66]] [] (by decide) (by decide)
  have heq : encodeFrames [[65], [66]] ++ ([] : List Nat)
      = [1, 0, 0, 0, 65, 1, 0, 0, 0, 66] := by decide
  rw [← heq, h]

/--
C1 (amended). The ES frame reader holds partially received bytes in a
rolling buffer and, after appending each arrival, dispatches every
complete `[u32 LE length][payload]` frame of the concatenated stream in
order, keeping the incomplete remainder; in particular frames split
across reads are reassembled and multiple frames in one read are all
dispatched.  The CS frame reader keeps no rolling buffer: each TCP read
is parsed standalone, yielding exactly the first complete frame when the
read starts with one, and nothing when the read is a partial frame.
-/
theorem c1_frame_readers_amended
    (arrivals ps : List (List Nat)) (r : List Nat)
    (hps : ∀ p ∈ ps, p.length < 4294967296)
    (hr : incompleteFrame r)
    (hjoin : arrivals.flatten = encodeFrames ps ++ r)
    (q rest r2 : List Nat)
    (hq : q.length < 4294967296)
    (_hqascii : ∀ b ∈ q, b < 128)
    (hr2 : incompleteFrame r2) :
    (ES.esRun arrivals).2 = ps
    ∧ (ES.esRun arrivals).1 = r
    ∧ CS.parseControlMessage (encodeFrame q ++ rest) = some q
    ∧ CS.parseControlMessage r2 = none := by
  have hes := ES.esRun_eq_extract arrivals
  rw [hjoin, ES.extractFrames_encodeFrames ps r hps hr] at hes
  refine ⟨by rw [hes], by rw [hes], ?_, ?_⟩
  · have hassoc : encodeFrame q ++ rest = u32le q.length ++ (q ++ rest) := by
      simp [encodeFrame]
    have hlen4 : (u32le q.length).length = 4 := by simp [u32le]
    have hread : readU32LE (u32le q.length ++ (q ++ rest)) = q.length :=
      readU32LE_u32le q.length _ hq
    have hlentot : (u32le q.length ++ (q ++ rest)).length = 4 + (q.length + rest.length) := by
      simp only [List.length_append, hlen4]
    rw [hassoc]
    unfold CS.parseControlMessage
    rw [if_neg (by omega), hread, if_neg (by omega)]
    have hdrop4 : (u32le q.length ++ (q ++ rest)).drop 4 = q ++ rest := by
      rw [← hlen4, List.drop_left]
    rw [hdrop4, List.take_left]
  · unfold CS.parseControlMessage
    rcases hr2 with h | h
    · rw [if_pos h]
    · by_cases h4 : r2.length < 4
      · rw [if_pos h4]
      · rw [if_neg h4, if_pos h]

/-- C1 witness: the amended statement at concrete inputs — a frame split
across two reads plus a trailing partial frame on the ES, and a
first-frame-only read plus a short read on the CS. -/
theorem c1_frame_readers_witness :
    (ES.esRun [[2, 0], [0, 0, 65, 66, 1, 0, 0, 0]]).2 = [[65, 66]]
    ∧ (ES.esRun [[2, 0], [0, 0, 65, 66, 1, 0, 0, 0]]).1 = [1, 0, 0, 0]
    ∧ CS.parseControlMessage (encodeFrame [67] ++ [9, 9]) = some [67]
    ∧ CS.parseControlMessage [5, 0, 0] = none :=
  c1_frame_readers_amended [[2, 0], [0, 0, 65, 66, 1, 0, 0, 0]] [[65, 66]] [1, 0, 0, 0]
    (by decide) (by decide) (by decide) [67] [9, 9] [5, 0, 0]
    (by decide) (by decide) (by decide)

end Mineflare

namespace Mineflare.Chunked

/-!
## Chunked-transfer decoder

The CS response reader (Bun proxy script) and the ES request reader
(src/container.ts) each contain a line-for-line identical
`decodeChunkedBody` loop; it is modelled once here.  The loop scans a
combined byte buffer with a cursor `pos`, reading a hex size line up to
the next CR LF, then consuming that many data bytes plus a trailing CR
LF.  `parseInt(sizeLine, 16)` accepts an optional sign, so a crafted
size line can parse to a negative chunk size and move the cursor
backwards; `pos` is therefore an integer.
-/

/-- JS `TypedArray.slice` index resolution: negative indices count from
the end, then the index is clamped into `[0, len]`. -/
def jsSliceBound (len : Nat) (i : Int) : Nat :=
  if i < 0 then (max ((len : Int) + i) 0).toNat else min i.toNat len

/-- JS `combined.slice(s, e)`: the elements from resolved index `s`
(inclusive) to `e` (exclusive), empty when `s ≥ e`. -/
def jsSlice (l : List Nat) (s e : Int) : List Nat :=
  (l.take (jsSliceBound l.length e)).drop (jsSliceBound l.length s)

/-- The `lineEnd` scan: the first index at or after `start` holding the
pair CR LF, subject to the loop bound `lineEnd < length - 1` (negative
and out-of-range indices never match, so the scan effectively starts at
`max start 0`).  `none` models the scan running off the end, after which
the source breaks out of the decode loop. -/
def findCRLFfrom (l : List Nat) (start : Int) : Option Nat :=
  (List.range l.length).find? (fun j =>
    decide (start ≤ (j : Int)) && decide (j + 1 < l.length)
      && (l.getD j 0 == 13) && (l.getD (j + 1) 0 == 10))

def hexDigitVal (c : Char) : Option Nat :=
  if 48 ≤ c.toNat ∧ c.toNat ≤ 57 then some (c.toNat - 48)
  else if 97 ≤ c.toNat ∧ c.toNat ≤ 102 then some (c.toNat - 87)
  else if 65 ≤ c.toNat ∧ c.toNat ≤ 70 then some (c.toNat - 55)
  else none

def isJsSpace (c : Char) : Bool :=
  c == ' ' || c.toNat == 9 || c.toNat == 10 || c.toNat == 13 || c.toNat == 11 || c.toNat == 12

/-- `String.prototype.trim` (ASCII whitespace portion). -/
def trimChars (cs : List Char) : List Char :=
  ((cs.dropWhile isJsSpace).reverse.dropWhile isJsSpace).reverse

def hexDigitsVal (ds : List Char) : Nat :=
  ds.foldl (fun acc c => 16 * acc + (hexDigitVal c).getD 0) 0

/-- JS `parseInt(s, 16)` on an already-trimmed string: optional sign,
optional `0x`/`0X` prefix, then the longest run of hex digits; `none`
models `NaN` (no digits at all). -/
def parseJsHex (cs : List Char) : Option Int :=
  let sign : Int := match cs with
    | c :: _ => if c == '-' then -1 else 1
    | [] => 1
  let cs1 := match cs with
    | c :: t => if c == '-' || c == '+' then t else cs
    | [] => []
  let cs2 := match cs1 with
    | a :: b :: t => if a == '0' && (b == 'x' || b == 'X') then t else cs1
    | _ => cs1
  let ds := cs2.takeWhile (fun c => (hexDigitVal c).isSome)
  if ds.isEmpty then none else some (sign * (hexDigitsVal ds : Int))

/-- The chunk-size text of one iteration:
`sizeLine.split(';')[0].trim()` of the bytes between `pos` and the CR LF.
Bytes are read as characters directly; for the decoder this agrees with
the UTF-8 `TextDecoder` because bytes outside ASCII decode to characters
that are equally not hex digits, signs, whitespace or semicolons. -/
def sizeText (l : List Nat) (pos : Int) (lineEnd : Nat) : List Char :=
  trimChars (((jsSlice l pos (lineEnd : Int)).map (fun b => Char.ofNat b)).takeWhile
    (fun c => c != ';'))

/-- One iteration of the decode `while` loop: either it breaks out
(returning the chunks accumulated so far) or it consumes one declared
chunk and continues at a new cursor. -/
inductive DecodeStep
  | stop
  | cont (data : List Nat) (next : Int)
deriving DecidableEq

def decodeStep (l : List Nat) (pos : Int) : DecodeStep :=
  if pos < (l.length : Int) then
    match findCRLFfrom l pos with
    | none => .stop
    | some lineEnd =>
      match parseJsHex (sizeText l pos lineEnd) with
      | none => .stop
      | some z =>
        if z = 0 then .stop
        else if (lineEnd : Int) + 2 + z ≤ (l.length : Int) then
          .cont (jsSlice l ((lineEnd : Int) + 2) ((lineEnd : Int) + 2 + z))
            ((lineEnd : Int) + 2 + z + 2)
        else .stop
  else .stop

/-- The decode loop, step-indexed: `fuel` bounds the number of loop
iterations (the source has no such bound).  `none` means the loop has
not finished within `fuel` iterations; a `some` result for any fuel is
the value the source loop returns, namely the concatenation of the
decoded chunks. -/
def decodeLoop (l : List Nat) : Nat → Int → Option (List Nat)
  | 0, _ => none
  | fuel + 1, pos =>
    match decodeStep l pos with
    | .stop => some []
    | .cont data next => (decodeLoop l fuel next).map (fun rest => data ++ rest)

theorem decodeLoop_mono (l : List Nat) (f g : Nat) (pos : Int) (r : List Nat)
    (hf : decodeLoop l f pos = some r) (hle : f ≤ g) : decodeLoop l g pos = some r := by
  induction f generalizing g pos r with
  | zero => simp [decodeLoop] at hf
  | succ n ih =>
    obtain ⟨m, rfl⟩ : ∃ m, g = m + 1 := ⟨g - 1, by omega⟩
    rw [decodeLoop] at hf
    rw [decodeLoop]
    cases hstep : decodeStep l pos with
    | stop =>
      simp only [hstep] at hf
      simp only [hstep]
      exact hf
    | cont data next =>
      simp only [hstep] at hf
      simp only [hstep]
      rcases Option.map_eq_some'.mp hf with ⟨r0, hr0, hcat⟩
      rw [ih m next r0 hr0 (by omega)]
      simp [hcat]

end Mineflare.Chunked

namespace Mineflare.CS

/-!
## CS response reader (`readHTTPResponseFromDataChannel`, Bun proxy script)

State over bytes arriving on a data channel: header phase until
`\r\n\r\n`, then body phase.  The models below cover the decision made
once the header block has been parsed (status code, `content-length`,
`transfer-encoding` already extracted) and the body-phase data handler.
-/

/-- The chunked-completion test on the most recent body chunk:
`new TextDecoder().decode(lastChunk.slice(-5)).includes("0\r\n\r\n")`.
A string decoded from at most five bytes contains the five-character
terminator exactly when those final five bytes are `0 \r \n \r \n`,
which is how the check is modelled. -/
def lastFiveIsTerminator (chunk : List Nat) : Bool :=
  chunk.drop (chunk.length - 5) == [48, 13, 10, 13, 10]

/-- `isResponseComplete(contentLength, bodyReceived, isChunked, bodyChunks)`:
received-enough under a declared `content-length`, else terminator in the
tail of the last body chunk when chunked, else false (wait for close). -/
def isResponseComplete (contentLength : Option Int) (bodyReceived : Nat)
    (isChunked : Bool) (bodyChunks : List (List Nat)) : Bool :=
  (match contentLength with
    | some n => decide (n ≤ (bodyReceived : Int))
    | none => false)
  || (isChunked &&
      (match bodyChunks.getLast? with
        | some lastChunk => lastFiveIsTerminator lastChunk
        | none => false))

structure BodyState where
  contentLength : Option Int
  isChunked : Bool
  bodyChunks : List (List Nat)
  bodyReceived : Nat
  responseComplete : Bool
deriving DecidableEq

/-- The `dataHandler` body-phase branch: the read is appended to the
(empty) rolling buffer, pushed as one body chunk, counted, and the
completion test decides whether the response finalizes now.  When it
does not, the reader keeps waiting (for more data, for the connection to
close, or for the 10-minute timeout). -/
def bodyStep (st : BodyState) (data : List Nat) : BodyState :=
  if st.responseComplete then st
  else
    let chunks := st.bodyChunks ++ [data]
    let received := st.bodyReceived + data.length
    if isResponseComplete st.contentLength received st.isChunked chunks then
      { st with bodyChunks := chunks, bodyReceived := received, responseComplete := true }
    else
      { st with bodyChunks := chunks, bodyReceived := received }

/-- Outcome of the header-parsed moment of `dataHandler`. -/
inductive HeaderOutcome
  | finalized (statusCode : Nat) (bodyChunks : List (List Nat)) (isChunked : Bool)
  | readingBody (st : BodyState)
deriving DecidableEq

/-- The code run immediately after the header block has been parsed:
status codes 204, 304 and 1xx finalize at once with no body chunks and
`isChunked := false` (so `finalizeResponse` concatenates nothing),
discarding any bytes past the header terminator; otherwise those bytes
seed the body buffer and the completion test may already finalize. -/
def afterHeadersStep (statusCode : Nat) (contentLength : Option Int) (isChunked : Bool)
    (restAfterHeaders : List Nat) : HeaderOutcome :=
  if statusCode = 204 ∨ statusCode = 304 ∨ (100 ≤ statusCode ∧ statusCode < 200) then
    .finalized statusCode [] false
  else
    let bodyChunks := if 0 < restAfterHeaders.length then [restAfterHeaders] else []
    if isResponseComplete contentLength restAfterHeaders.length isChunked bodyChunks then
      .finalized statusCode bodyChunks isChunked
    else
      .readingBody ⟨contentLength, isChunked, bodyChunks, restAfterHeaders.length, false⟩

end Mineflare.CS

namespace Mineflare

/--
C10. The claim says both chunked decoders are total on arbitrary byte
input.  They are not: on the four bytes `- 6 \r \n` the size line parses
(via `parseInt(.., 16)`, which accepts a sign) to the negative chunk
size −6, the guard `pos + chunkSize <= length` holds, the consumed slice
is empty, and the cursor update `pos = lineEnd + 2 + chunkSize + 2`
returns the cursor to its old position 0: the loop iterates forever
(first conjunct: one iteration from position 0 consumes nothing and
continues at position 0 again; second: no iteration bound makes the loop
terminate). -/
theorem c10_decoder_diverges :
    Chunked.decodeStep [45, 54, 13, 10] 0 = Chunked.DecodeStep.cont [] 0
    ∧ ∀ fuel : Nat, Chunked.decodeLoop [45, 54, 13, 10] fuel 0 = none := by
  refine ⟨by decide, ?_⟩
  intro fuel
  induction fuel with
  | zero => rfl
  | succ n ih =>
    have hstep : Chunked.decodeStep [45, 54, 13, 10] 0 = Chunked.DecodeStep.cont [] 0 := by
      decide
    rw [Chunked.decodeLoop]
    simp only [hstep]
    rw [ih]
    rfl

/-- The chunk data `5 \r\n h e l l o \r\n` used to exercise the split
chunked terminator. -/
def c2chunk : List Nat := [53, 13, 10, 104, 101, 108, 108, 111, 13, 10]

/-- The chunked terminator `0 \r\n \r\n`. -/
def c2term : List Nat := [48, 13, 10, 13, 10]

/-- Reader state right after the headers of a chunked response with no
content-length were parsed, with no body bytes yet. -/
def c2init : CS.BodyState := ⟨none, true, [], 0, false⟩

/--
C2 (counterexample). The claim says the CS response reader detects
completion even when the terminator `0\r\n\r\n` is split across two TCP
reads.  It does not: after the reads `5\r\nhello\r\n0\r` and `\n\r\n`
the reader is still not complete (the completion test only inspects the
final five bytes of the most recent read), although the identical bytes
in a single read complete immediately. -/
theorem c2_split_terminator_counterexample :
    (CS.bodyStep (CS.bodyStep c2init (c2chunk ++ [48, 13])) [10, 13, 10]).responseComplete
      = false
    ∧ (CS.bodyStep c2init (c2chunk ++ c2term)).responseComplete = true := by
  decide

/--
C2 (amended). For every split of the chunked terminator `0\r\n\r\n`
across two TCP reads, the CS response reader does NOT detect completion
from those reads (it accumulates the bytes and keeps waiting, so the
response finalizes only on connection close or the 10-minute timeout);
at that finalization the close handler holds exactly the full byte
stream, and the chunked decode of that stream terminates with the single
body `hello`. -/
theorem c2_split_terminator_amended :
    (∀ i : Nat, i < 5 → 0 < i →
      (CS.bodyStep (CS.bodyStep c2init (c2chunk ++ c2term.take i)) (c2term.drop i)).responseComplete
          = false
      ∧ ((CS.bodyStep (CS.bodyStep c2init (c2chunk ++ c2term.take i)) (c2term.drop i)).bodyChunks).flatten
          = c2chunk ++ c2term)
    ∧ (∀ fuel : Nat, 2 ≤ fuel →
        Chunked.decodeLoop (c2chunk ++ c2term) fuel 0 = some [104, 101, 108, 108, 111]) := by
  constructor
  · decide
  · intro fuel hf
    exact Chunked.decodeLoop_mono _ 2 fuel 0 _ (by decide) hf

/-- C2 witness: the amended statement at the concrete split `0\r` /
`\n\r\n` and at six units of decode fuel. -/
theorem c2_split_terminator_witness :
    ((CS.bodyStep (CS.bodyStep c2init (c2chunk ++ [48, 13])) [10, 13, 10]).responseComplete
        = false
      ∧ ((CS.bodyStep (CS.bodyStep c2init (c2chunk ++ [48, 13])) [10, 13, 10]).bodyChunks).flatten
          = c2chunk ++ c2term)
    ∧ Chunked.decodeLoop (c2chunk ++ c2term) 6 0 = some [104, 101, 108, 108, 111] :=
  ⟨c2_split_terminator_amended.1 2 (by decide) (by decide),
    c2_split_terminator_amended.2 6 (by decide)⟩

/--
C6. Whenever the parsed status code is 204, 304 or in 100..199, the CS
response reader finalizes immediately after the header block with an
empty body (no body chunks, chunked decoding off), for every declared
`content-length`, `transfer-encoding` and every residue of bytes past
the header terminator. -/
theorem c6_early_completion (sc : Nat) (cl : Option Int) (ic : Bool) (rest : List Nat)
    (h : sc = 204 ∨ sc = 304 ∨ (100 ≤ sc ∧ sc < 200)) :
    CS.afterHeadersStep sc cl ic rest = CS.HeaderOutcome.finalized sc [] false := by
  unfold CS.afterHeadersStep
  rw [if_pos h]

/-- C6 witness: 204 with a declared content-length and chunked encoding,
304 with a content-length, and 101 with chunked encoding and stray bytes
after the headers all finalize empty at once. -/
theorem c6_early_completion_witness :
    CS.afterHeadersStep 204 (some 10) true [1, 2, 3] = CS.HeaderOutcome.finalized 204 [] false
    ∧ CS.afterHeadersStep 304 (some 5) false [] = CS.HeaderOutcome.finalized 304 [] false
    ∧ CS.afterHeadersStep 101 none true [13] = CS.HeaderOutcome.finalized 101 [] false :=
  ⟨c6_early_completion 204 (some 10) true [1, 2, 3] (Or.inl rfl),
    c6_early_completion 304 (some 5) false [] (Or.inr (Or.inl rfl)),
    c6_early_completion 101 none true [13] (Or.inr (Or.inr (by omega)))⟩


/-- ASCII bytes of a string, as `TextEncoder().encode` yields on the
ASCII header text the serializers produce. -/
def encStr (s : String) : List Nat := s.data.map Char.toNat

/-- Whether `hay` starts with `needle` (character lists). -/
def startsWithChars : List Char → List Char → Bool
  | [], _ => true
  | _ :: _, [] => false
  | a :: as, b :: bs => a == b && startsWithChars as bs

/-- JS `String.prototype.includes`: contiguous-substring test. -/
def hasSubChars (needle : List Char) : List Char → Bool
  | [] => needle.isEmpty
  | b :: t => startsWithChars needle (b :: t) || hasSubChars needle t

/-- JS `n.toString(16)` for a nonnegative length: base-16 digits,
lowercase letters, `0` for zero. -/
def natToHex (n : Nat) : List Char :=
  Nat.toDigits 16 n

/-- One chunk on the wire, as both the CS request re-chunker and the ES
response chunker emit it: `hex(len) \r\n data \r\n`. -/
def encodeChunk (b : List Nat) : List Nat :=
  (natToHex b.length).map Char.toNat ++ [13, 10] ++ b ++ [13, 10]

/-!
### `Headers` model

Both sides manipulate WHATWG `Headers` objects.  A `Headers` value is
modelled as an association list of name/value pairs; `get`, `has` and
`set` operate on an exact (already lower-cased where the source
lower-cases) name.
-/

def hHas (hs : List (String × String)) (k : String) : Bool :=
  hs.any (fun kv => kv.1 == k)

def hGet (hs : List (String × String)) (k : String) : Option String :=
  (hs.find? (fun kv => kv.1 == k)).map (fun kv => kv.2)

/-- `Headers.set`: replace the value when the name is present, append
otherwise. -/
def hSet (hs : List (String × String)) (k v : String) : List (String × String) :=
  if hs.any (fun kv => kv.1 == k) then
    hs.map (fun kv => if kv.1 == k then (kv.1, v) else kv)
  else hs ++ [(k, v)]

theorem find?_hSet_map (hs : List (String × String)) (k v k2 : String) :
    (hs.map (fun kv => if kv.1 == k then (kv.1, v) else kv)).find? (fun kv => kv.1 == k2)
      = (hs.find? (fun kv => kv.1 == k2)).map (fun kv => if kv.1 == k then (kv.1, v) else kv) := by
  induction hs with
  | nil => rfl
  | cons a t ih =>
    have hrepl : ((if a.1 == k then (a.1, v) else a).1 == k2) = (a.1 == k2) := by
      by_cases hak : (a.1 == k) = true
      · rw [if_pos hak]
      · rw [if_neg hak]
    rw [List.map_cons, List.find?_cons, List.find?_cons, hrepl]
    by_cases ha : (a.1 == k2) = true
    · simp only [ha, Option.map_some']
    · have ha2 : (a.1 == k2) = false := by
        rwa [Bool.not_eq_true] at ha
      simp only [ha2, ih]

theorem hGet_hSet_self (hs : List (String × String)) (k v : String) :
    hGet (hSet hs k v) k = some v := by
  unfold hGet hSet
  by_cases h : hs.any (fun kv => kv.1 == k)
  · rw [if_pos h, find?_hSet_map]
    rcases List.any_eq_true.mp h with ⟨x, hx, hpx⟩
    have hsome : (hs.find? (fun kv => kv.1 == k)).isSome :=
      List.find?_isSome.mpr ⟨x, hx, hpx⟩
    rcases Option.isSome_iff_exists.mp hsome with ⟨y, hy⟩
    have hpy := List.find?_some hy
    rw [hy]
    simp only [Option.map_some']
    rw [if_pos hpy]
  · rw [if_neg h, List.find?_append]
    have hnone : hs.find? (fun kv => kv.1 == k) = none := by
      rw [List.find?_eq_none]
      intro x hx hpx
      exact h (List.any_eq_true.mpr ⟨x, hx, hpx⟩)
    rw [hnone]
    simp

theorem hGet_hSet_ne (hs : List (String × String)) (k v k2 : String) (hne : k2 ≠ k) :
    hGet (hSet hs k v) k2 = hGet hs k2 := by
  unfold hGet hSet
  by_cases h : hs.any (fun kv => kv.1 == k)
  · rw [if_pos h, find?_hSet_map]
    cases hf : hs.find? (fun kv => kv.1 == k2) with
    | none => simp
    | some y =>
      have hpy := List.find?_some hf
      have hy2 : y.1 = k2 := by simpa using hpy
      have hyk : ¬ (y.1 == k) = true := by
        simp only [hy2, beq_iff_eq]
        exact hne
      simp only [Option.map_some']
      rw [if_neg hyk]
  · rw [if_neg h, List.find?_append]
    have hkv : ¬ (((k, v).1 == k2) = true) := by
      simp only [beq_iff_eq]
      exact fun hkk => hne hkk.symm
    cases hf : hs.find? (fun kv => kv.1 == k2) with
    | none =>
      have hkv2 : (((k, v).1 == k2)) = false := by
        rwa [Bool.not_eq_true] at hkv
      simp only [Option.none_or, List.find?_cons, hkv2, List.find?_nil]
    | some y => simp

theorem hHas_eq_isSome (hs : List (String × String)) (k : String) :
    hHas hs k = (hGet hs k).isSome := by
  unfold hHas hGet
  cases hf : hs.find? (fun kv => kv.1 == k) with
  | none =>
    rw [List.find?_eq_none] at hf
    simp only [Option.map_none', Option.isSome_none]
    rw [List.any_eq_false]
    exact hf
  | some y =>
    have hpy := List.find?_some hf
    have hmem := List.mem_of_find?_eq_some hf
    simp only [Option.map_some', Option.isSome_some]
    exact List.any_eq_true.mpr ⟨y, hmem, hpy⟩

theorem hHas_hSet_ne (hs : List (String × String)) (k v k2 : String) (hne : k2 ≠ k) :
    hHas (hSet hs k v) k2 = hHas hs k2 := by
  rw [hHas_eq_isSome, hHas_eq_isSome, hGet_hSet_ne hs k v k2 hne]

namespace CS

/-- One CS data-channel record as the allocator sees it (`port`,
`currentSocket` presence, `inUse`). -/
structure DataChannelState where
  port : Nat
  hasSocket : Bool
  inUse : Bool
deriving DecidableEq

/-- Result of `allocateDataChannel`: rejection, immediate resolution on
keep-alive reuse, or a pending `allocate_channel` request to the ES
(which resolves on `channel_allocated` or a 10-second timeout). -/
inductive AllocOutcome
  | rejected (msg : String)
  | resolvedNow (port : Nat)
  | pendingRequest (port : Nat)
deriving DecidableEq

/-- `allocateDataChannel`: take the first record with `inUse == false`
(`Array.from(values()).find`); none rejects with
`No available data channels`; a record with a live socket resolves
immediately, otherwise the CS sends `allocate_channel` and waits.  (The
chosen record is also marked `inUse := true`; the outcome is what the
ingress observes.) -/
def allocateDataChannel (channels : List DataChannelState) : AllocOutcome :=
  match channels.find? (fun ch => !ch.inUse) with
  | none => .rejected "No available data channels"
  | some ch =>
    if ch.hasSocket then .resolvedNow ch.port
    else .pendingRequest ch.port

/-- The ingress response as the catch block shapes it: status, body text
and the optional `Retry-After` header (the only header it sets). -/
structure HttpResponse where
  status : Nat
  body : String
  retryAfter : Option String
deriving DecidableEq

/-- The catch block of `handleHTTPRequest`: the saturation error message
maps to 503 with `Retry-After: 1`; every other failure maps to 502 with
`Proxy Error: ${error}` (every failure thrown on this path is an `Error`
instance, which stringifies as `Error: <message>`). -/
def handleRequestFailure (msg : String) : HttpResponse :=
  if msg = "No available data channels" then
    ⟨503, "Service Unavailable: All proxy channels in use", some "1"⟩
  else
    ⟨502, "Proxy Error: Error: " ++ msg, none⟩

end CS

/--
C3. Allocation rejects with the saturation error exactly when every data
channel has `in_use == true`; the ingress maps that error to
`503` with body `Service Unavailable: All proxy channels in use` and
header `Retry-After: 1`, and maps every other failure message
(allocation timeout, connect failure, response error, ...) to `502` with
body `Proxy Error: <detail>`. -/
theorem c3_saturation_503_others_502 (channels : List CS.DataChannelState) (msg : String) :
    ((∀ ch ∈ channels, ch.inUse = true) ↔
      CS.allocateDataChannel channels = CS.AllocOutcome.rejected "No available data channels")
    ∧ CS.handleRequestFailure "No available data channels"
        = ⟨503, "Service Unavailable: All proxy channels in use", some "1"⟩
    ∧ (msg ≠ "No available data channels" →
        CS.handleRequestFailure msg = ⟨502, "Proxy Error: Error: " ++ msg, none⟩) := by
  refine ⟨⟨?_, ?_⟩, by decide, ?_⟩
  · intro h
    unfold CS.allocateDataChannel
    have hnone : channels.find? (fun ch => !ch.inUse) = none := by
      rw [List.find?_eq_none]
      intro ch hch
      simp [h ch hch]
    rw [hnone]
  · intro h ch hch
    by_contra hniu
    have hfalse : ch.inUse = false := by
      cases hiu : ch.inUse
      · rfl
      · exact absurd hiu hniu
    have hsome : (channels.find? (fun ch => !ch.inUse)).isSome :=
      List.find?_isSome.mpr ⟨ch, hch, by simp [hfalse]⟩
    rcases Option.isSome_iff_exists.mp hsome with ⟨ch0, hch0⟩
    unfold CS.allocateDataChannel at h
    simp only [hch0] at h
    by_cases hs : ch0.hasSocket
    · rw [if_pos hs] at h
      exact CS.AllocOutcome.noConfusion h
    · rw [if_neg hs] at h
      exact CS.AllocOutcome.noConfusion h
  · intro hne
    unfold CS.handleRequestFailure
    rw [if_neg hne]

/-- C3 witness: a fully saturated two-channel pool rejects with the
saturation message; and the two failure shapes at concrete messages. -/
theorem c3_saturation_witness :
    CS.allocateDataChannel [⟨8085, true, true⟩, ⟨8086, false, true⟩]
        = CS.AllocOutcome.rejected "No available data channels"
    ∧ CS.handleRequestFailure "No available data channels"
        = ⟨503, "Service Unavailable: All proxy channels in use", some "1"⟩
    ∧ CS.handleRequestFailure "Channel allocation timeout"
        = ⟨502, "Proxy Error: Error: Channel allocation timeout", none⟩ := by
  have h := c3_saturation_503_others_502 [⟨8085, true, true⟩, ⟨8086, false, true⟩]
      "Channel allocation timeout"
  exact ⟨h.1.mp (by decide), h.2.1, h.2.2 (by decide)⟩

namespace ES

/-- One ES data-channel record (`port`, `inUse`; socket/reader/writer
are life-cycle state not needed for the allocation decision). -/
structure DataChannelState where
  port : Nat
  inUse : Bool
deriving DecidableEq

/-- The observable side effects of `handleChannelAllocation`, in program
order. -/
inductive AllocEvent
  | sentError (requestId : String) (message : String)
  | markInUse (port : Nat)
  | connect (port : Nat)
  | sentChannelAllocated (requestId : String) (port : Nat)
  | startHandler (port : Nat)
deriving DecidableEq

/-- `handleChannelAllocation(requestId, port)`: look up the record for
`port` (absent: error reply, stop); if `inUse`: error reply, stop; else
mark in use, connect to the data port, and only then reply
`channel_allocated` and start the data-channel handler.  `connectOk`
abstracts whether `connectDataChannel` succeeds; on failure the catch
block replies with `String(error)` (and the record stays marked in use). -/
def handleChannelAllocation (channels : List DataChannelState) (requestId : String)
    (port : Nat) (connectOk : Bool) (connectErr : String) :
    List AllocEvent × List DataChannelState :=
  match channels.find? (fun ch => ch.port == port) with
  | none => ([.sentError requestId "Requested channel not found"], channels)
  | some ch =>
    if ch.inUse then
      ([.sentError requestId "Requested channel already in use"], channels)
    else
      let channels1 := channels.map (fun c => if c.port == port then { c with inUse := true } else c)
      if connectOk then
        ([.markInUse port, .connect port, .sentChannelAllocated requestId port,
            .startHandler port], channels1)
      else
        ([.markInUse port, .connect port, .sentError requestId connectErr], channels1)

end ES

/--
C4. On `AllocateChannel{request_id, port}` the ES replies
`Error{request_id, "Requested channel not found"}` and stops when no
record exists for `port`; replies
`Error{request_id, "Requested channel already in use"}` and stops when
the record is in use; and otherwise sets `in_use = true`, opens the TCP
connection to the data port, and only after the connect replies
`ChannelAllocated{request_id, port}` (the event trace places the reply
strictly after the connect). -/
theorem c4_channel_allocation (channels : List ES.DataChannelState) (rid : String)
    (port : Nat) (ok : Bool) (err : String) :
    (channels.find? (fun ch => ch.port == port) = none →
      ES.handleChannelAllocation channels rid port ok err
        = ([ES.AllocEvent.sentError rid "Requested channel not found"], channels))
    ∧ (∀ ch, channels.find? (fun ch => ch.port == port) = some ch → ch.inUse = true →
      ES.handleChannelAllocation channels rid port ok err
        = ([ES.AllocEvent.sentError rid "Requested channel already in use"], channels))
    ∧ (∀ ch, channels.find? (fun ch => ch.port == port) = some ch → ch.inUse = false →
      ES.handleChannelAllocation channels rid port true err
        = ([ES.AllocEvent.markInUse port, ES.AllocEvent.connect port,
            ES.AllocEvent.sentChannelAllocated rid port, ES.AllocEvent.startHandler port],
          channels.map (fun c => if c.port == port then { c with inUse := true } else c))) := by
  refine ⟨?_, ?_, ?_⟩
  · intro hnone
    unfold ES.handleChannelAllocation
    rw [hnone]
  · intro ch hfind hiu
    unfold ES.handleChannelAllocation
    rw [hfind]
    simp [hiu]
  · intro ch hfind hiu
    unfold ES.handleChannelAllocation
    rw [hfind]
    simp [hiu]

/-- C4 witness: the three replies at concrete single-channel pools. -/
theorem c4_channel_allocation_witness :
    ES.handleChannelAllocation [⟨8085, false⟩] "r1" 9999 true "e"
        = ([ES.AllocEvent.sentError "r1" "Requested channel not found"], [⟨8085, false⟩])
    ∧ ES.handleChannelAllocation [⟨8085, true⟩] "r2" 8085 true "e"
        = ([ES.AllocEvent.sentError "r2" "Requested channel already in use"], [⟨8085, true⟩])
    ∧ ES.handleChannelAllocation [⟨8085, false⟩] "r3" 8085 true "e"
        = ([ES.AllocEvent.markInUse 8085, ES.AllocEvent.connect 8085,
            ES.AllocEvent.sentChannelAllocated "r3" 8085, ES.AllocEvent.startHandler 8085],
          [⟨8085, true⟩]) := by
  have h1 := (c4_channel_allocation [⟨8085, false⟩] "r1" 9999 true "e").1 (by decide)
  have h2 := (c4_channel_allocation [⟨8085, true⟩] "r2" 8085 true "e").2.1
      ⟨8085, true⟩ (by decide) rfl
  have h3 := (c4_channel_allocation [⟨8085, false⟩] "r3" 8085 true "e").2.2
      ⟨8085, false⟩ (by decide) rfl
  refine ⟨h1, h2, ?_⟩
  rw [h3]
  decide

namespace ES

/-- What the heartbeat watchdog observes at one 5-second wake: whether
`this.heartbeatWatchdogInterval` still refers to this loop, the
container status, the clock, and `this.lastHeartbeatAt`. -/
structure WatchdogObs where
  intervalUnchanged : Bool
  running : Bool
  now : Int
  lastHeartbeatAt : Int
deriving DecidableEq

/-- The watchdog loop of `startHeartbeatWatchdog`, one entry of `obs`
per 5-second wake, with `startedAt` captured at loop start: a changed
interval handle or a non-running status exits the loop; otherwise the
control channel is force-closed exactly when `now − lastHeartbeatAt >
20000` and `now − startedAt > 10000` (the loop then continues either
way).  The result lists the times at which `forceCloseControlChannel`
ran. -/
def watchdogRun (startedAt : Int) : List WatchdogObs → List Int
  | [] => []
  | o :: rest =>
    if !o.intervalUnchanged then []
    else if !o.running then []
    else if o.now - o.lastHeartbeatAt > 20000 ∧ o.now - startedAt > 10000 then
      o.now :: watchdogRun startedAt rest
    else watchdogRun startedAt rest

end ES

/--
C8. Across every sequence of watchdog checks, the control channel is
force-closed exactly at those checks (among the ones the loop reaches
while its handle is current and the container is running) where both
`now − last_heartbeat_at > 20000` and `now − startedAt > 10000` hold; a
check failing either condition closes nothing.  (The 5-second wake
cadence is represented by the sequence of observations, one per wake.) -/
theorem c8_watchdog_closes_iff (startedAt : Int) (obs : List ES.WatchdogObs) :
    ES.watchdogRun startedAt obs =
      ((obs.takeWhile (fun o => o.intervalUnchanged && o.running)).filter
        (fun o => decide (o.now - o.lastHeartbeatAt > 20000)
          && decide (o.now - startedAt > 10000))).map (fun o => o.now) := by
  induction obs with
  | nil => rfl
  | cons o rest ih =>
    by_cases h1 : o.intervalUnchanged
    · by_cases h2 : o.running
      · by_cases h3 : o.now - o.lastHeartbeatAt > 20000 ∧ o.now - startedAt > 10000
        · unfold ES.watchdogRun
          rw [List.takeWhile_cons]
          simp only [h1, h2, Bool.and_self, if_pos, h3, ih]
          rw [List.filter_cons]
          simp [h3.1, h3.2]
        · unfold ES.watchdogRun
          rw [List.takeWhile_cons]
          simp only [h1, h2, Bool.and_self, if_pos, h3, ih]
          rw [List.filter_cons]
          rw [Classical.not_and_iff_or_not_not] at h3
          rcases h3 with h3 | h3
          · simp [h3]
          · simp [h3]
      · unfold ES.watchdogRun
        rw [List.takeWhile_cons]
        simp [h1, h2]
    · unfold ES.watchdogRun
      rw [List.takeWhile_cons]
      simp [h1]

namespace ES

/-!
## Object-store DELETE path (`fetchFromR2`, src/container.ts)

The bucket contents visible to the DELETE handler are modelled as an
association list from object key to payload; `head` is lookup and
`delete` removes every binding for the key.
-/

def r2Head (store : List (String × List Nat)) (key : String) : Option (List Nat) :=
  (store.find? (fun kv => kv.1 == key)).map (fun kv => kv.2)

def r2Delete (store : List (String × List Nat)) (key : String) : List (String × List Nat) :=
  store.filter (fun kv => !(kv.1 == key))

/-- The `DELETE` arm of `fetchFromR2` without `uploadId`: `head` the
key; when absent answer `204` leaving the store unchanged (S3-style
idempotence), otherwise `delete` and answer `204`.  Returns the HTTP
status together with the store after the operation. -/
def fetchFromR2Delete (store : List (String × List Nat)) (key : String) :
    Nat × List (String × List Nat) :=
  match r2Head store key with
  | none => (204, store)
  | some _ => (204, r2Delete store key)

theorem r2Head_r2Delete (store : List (String × List Nat)) (key : String) :
    r2Head (r2Delete store key) key = none := by
  unfold r2Head r2Delete
  have hnone : (store.filter (fun kv => !(kv.1 == key))).find? (fun kv => kv.1 == key) = none := by
    rw [List.find?_eq_none]
    intro x hx
    have hmem := List.of_mem_filter hx
    simp only [Bool.not_eq_true'] at hmem
    simp [hmem]
  rw [hnone]
  rfl

end ES

/--
C9. `DELETE /key` without `uploadId` answers `204` on every store
(present or absent object), a second `DELETE` of the same key answers
`204` again, and afterwards the store holds no object under the key:
the operation is idempotent. -/
theorem c9_delete_idempotent (store : List (String × List Nat)) (key : String) :
    (ES.fetchFromR2Delete store key).1 = 204
    ∧ (ES.fetchFromR2Delete (ES.fetchFromR2Delete store key).2 key).1 = 204
    ∧ ES.r2Head (ES.fetchFromR2Delete (ES.fetchFromR2Delete store key).2 key).2 key = none := by
  cases h : ES.r2Head store key with
  | none =>
    have h1 : ES.fetchFromR2Delete store key = (204, store) := by
      unfold ES.fetchFromR2Delete
      rw [h]
    exact ⟨by rw [h1], by simp [h1], by simp [h1, h]⟩
  | some v =>
    have h1 : ES.fetchFromR2Delete store key = (204, ES.r2Delete store key) := by
      unfold ES.fetchFromR2Delete
      rw [h]
    have hdel := ES.r2Head_r2Delete store key
    have h2 : ES.fetchFromR2Delete (ES.r2Delete store key) key
        = (204, ES.r2Delete store key) := by
      unfold ES.fetchFromR2Delete
      rw [hdel]
    exact ⟨by rw [h1], by simp [h1, h2], by simp [h1, h2, hdel]⟩


/-- ASCII lower-casing of one character, the effect of
`String.prototype.toLowerCase` on the header names and values involved. -/
def charToLower (c : Char) : Char :=
  if 65 ≤ c.toNat ∧ c.toNat ≤ 90 then Char.ofNat (c.toNat + 32) else c

/-- `value.toLowerCase()` at the character level. -/
def lowerChars (cs : List Char) : List Char := cs.map charToLower

namespace ES

/-- A Workers `Response` as `sendHTTPResponse` consumes it: status,
status text, headers, and the body stream chunks (`none` when
`response.body` is null). -/
structure ResponseData where
  status : Nat
  statusText : String
  headers : List (String × String)
  body : Option (List (List Nat))

/-- The serializer header scan: `key.toLowerCase() === 'content-length'`. -/
def headerIsCL (kv : String × String) : Bool :=
  Mineflare.lowerChars kv.1.data == "content-length".data

/-- The serializer header scan: `key.toLowerCase() === 'transfer-encoding'`
with `value.toLowerCase().includes('chunked')`. -/
def headerIsTEChunked (kv : String × String) : Bool :=
  (Mineflare.lowerChars kv.1.data == "transfer-encoding".data)
    && Mineflare.hasSubChars "chunked".data (Mineflare.lowerChars kv.2.data)

/-- `sendHTTPResponse`: status line, the declared headers, a
`Content-Length: 0` line when there is no body and no declared length, a
`Transfer-Encoding: chunked` line when there is a body but neither
framing declared, the blank line, then the body (chunk-encoded per
stream chunk with the `0\r\n\r\n` trailer exactly when the chunked line
was added, raw otherwise).  The result is the concatenation of all
`writer.write` payloads. -/
def sendHTTPResponse (r : ResponseData) : List Nat :=
  Mineflare.encStr ("HTTP/1.1 " ++ toString r.status ++ " " ++ r.statusText ++ "\r\n")
  ++ (r.headers.map (fun kv => Mineflare.encStr (kv.1 ++ ": " ++ kv.2 ++ "\r\n"))).flatten
  ++ (if r.body.isNone && !(r.headers.any headerIsCL) then
        Mineflare.encStr "Content-Length: 0\r\n" else [])
  ++ (if r.body.isSome && !(r.headers.any headerIsCL) && !(r.headers.any headerIsTEChunked) then
        Mineflare.encStr "Transfer-Encoding: chunked\r\n" else [])
  ++ Mineflare.encStr "\r\n"
  ++ (match r.body with
      | none => []
      | some chunks =>
        if !(r.headers.any headerIsCL) && !(r.headers.any headerIsTEChunked) then
          (chunks.map Mineflare.encodeChunk).flatten ++ [48, 13, 10, 13, 10]
        else chunks.flatten)

end ES

theorem lastFive_append_term (x : List Nat) :
    CS.lastFiveIsTerminator (x ++ [48, 13, 10, 13, 10]) = true := by
  unfold CS.lastFiveIsTerminator
  have hlen : (x ++ [48, 13, 10, 13, 10]).length = x.length + 5 := by simp
  rw [hlen, show x.length + 5 - 5 = x.length from by omega, List.drop_left]
  simp

/--
C5. When the ES serializes a response that has a body but declares
neither `Content-Length` nor `Transfer-Encoding: chunked`, the wire
carries an added `Transfer-Encoding: chunked` header and the body
chunk-encoded with the `0\r\n\r\n` trailer (so the CS completion test
recognizes the write); when the response has no body and no
`Content-Length`, the wire carries an added `Content-Length: 0`. -/
theorem c5_response_framing (st : Nat) (sx : String) (hs : List (String × String))
    (chunks : List (List Nat))
    (hcl : hs.any ES.headerIsCL = false) :
    (hs.any ES.headerIsTEChunked = false →
      ES.sendHTTPResponse ⟨st, sx, hs, some chunks⟩
        = encStr ("HTTP/1.1 " ++ toString st ++ " " ++ sx ++ "\r\n")
          ++ (hs.map (fun kv => encStr (kv.1 ++ ": " ++ kv.2 ++ "\r\n"))).flatten
          ++ encStr "Transfer-Encoding: chunked\r\n"
          ++ encStr "\r\n"
          ++ ((chunks.map encodeChunk).flatten ++ [48, 13, 10, 13, 10])
      ∧ CS.lastFiveIsTerminator (ES.sendHTTPResponse ⟨st, sx, hs, some chunks⟩) = true)
    ∧ ES.sendHTTPResponse ⟨st, sx, hs, none⟩
        = encStr ("HTTP/1.1 " ++ toString st ++ " " ++ sx ++ "\r\n")
          ++ (hs.map (fun kv => encStr (kv.1 ++ ": " ++ kv.2 ++ "\r\n"))).flatten
          ++ encStr "Content-Length: 0\r\n"
          ++ encStr "\r\n" := by
  constructor
  · intro hte
    have hwire : ES.sendHTTPResponse ⟨st, sx, hs, some chunks⟩
        = encStr ("HTTP/1.1 " ++ toString st ++ " " ++ sx ++ "\r\n")
          ++ (hs.map (fun kv => encStr (kv.1 ++ ": " ++ kv.2 ++ "\r\n"))).flatten
          ++ encStr "Transfer-Encoding: chunked\r\n"
          ++ encStr "\r\n"
          ++ ((chunks.map encodeChunk).flatten ++ [48, 13, 10, 13, 10]) := by
      simp only [ES.sendHTTPResponse, hcl, hte, Option.isNone_some, Option.isSome_some,
        Bool.not_false, Bool.false_and, Bool.and_true, Bool.true_and, Bool.and_self,
        if_true, if_false, Bool.false_eq_true, ite_false, ite_true, List.nil_append,
        List.append_nil]
    refine ⟨hwire, ?_⟩
    rw [hwire, ← List.append_assoc]
    exact lastFive_append_term _
  · simp only [ES.sendHTTPResponse, hcl, Option.isNone_none, Option.isSome_none,
      Bool.not_false, Bool.false_and, Bool.and_true, Bool.true_and,
      if_true, if_false, Bool.false_eq_true, ite_false, ite_true, List.nil_append,
      List.append_nil]

/-- C5 witness: a one-chunk `hi` body with only a content-type header is
chunk-encoded with the added `Transfer-Encoding` header, and a
header-less bodyless 204 gets `Content-Length: 0`. -/
theorem c5_response_framing_witness :
    ES.sendHTTPResponse ⟨200, "OK", [("Content-Type", "text/plain")], some [[104, 105]]⟩
      = encStr "HTTP/1.1 200 OK\r\nContent-Type: text/plain\r\nTransfer-Encoding: chunked\r\n\r\n2\r\nhi\r\n0\r\n\r\n"
    ∧ CS.lastFiveIsTerminator
        (ES.sendHTTPResponse ⟨200, "OK", [("Content-Type", "text/plain")], some [[104, 105]]⟩)
        = true
    ∧ ES.sendHTTPResponse ⟨204, "No Content", [], none⟩
      = encStr "HTTP/1.1 204 No Content\r\nContent-Length: 0\r\n\r\n" := by
  have h1 := (c5_response_framing 200 "OK" [("Content-Type", "text/plain")] [[104, 105]]
      (by decide)).1 (by decide)
  have h2 := (c5_response_framing 204 "No Content" [] [] (by decide)).2
  refine ⟨?_, h1.2, ?_⟩
  · rw [h1.1]
    decide
  · rw [h2]
    decide

namespace CS

/-- An ingress `Request` as the CS request writer consumes it: method,
`pathname + search`, URL host (used when the `Host` header is missing),
the request `Headers` (names stored lower-case, as `new Headers(...)`
normalizes them), and the body stream chunks (`none` when `req.body` is
null). -/
structure RequestData where
  method : String
  path : String
  host : String
  headers : List (String × String)
  body : Option (List (List Nat))

/-- The writer's chunked test:
`headers.get("transfer-encoding")?.toLowerCase().includes("chunked") ?? false`. -/
def teChunked (hs : List (String × String)) : Bool :=
  match hGet hs "transfer-encoding" with
  | some v => hasSubChars "chunked".data (lowerChars v.data)
  | none => false

/-- Request line, header lines and blank line in wire bytes. -/
def headerBlock (method path : String) (hs : List (String × String)) : List Nat :=
  encStr (method ++ " " ++ path ++ " HTTP/1.1\r\n")
  ++ (hs.map (fun kv => encStr (kv.1 ++ ": " ++ kv.2 ++ "\r\n"))).flatten
  ++ encStr "\r\n"

/-- `sendHTTPRequestOverDataChannel`: ensure a `Host` header, then
resolve body framing.  A body with neither `Content-Length` nor
`Transfer-Encoding: chunked` is buffered whole, `Content-Length` is set
to the buffered size, and the raw bytes follow the header block; a
chunked body is re-chunked on the wire with the `0\r\n\r\n` trailer; a
body with a declared `Content-Length` is streamed unchanged.  The
result is the concatenation of all socket writes (the write loops retry
partial writes until every byte is accepted). -/
def sendHTTPRequestOverDataChannel (r : RequestData) : List Nat :=
  let headers0 := if hHas r.headers "host" then r.headers else hSet r.headers "host" r.host
  match r.body with
  | none => headerBlock r.method r.path headers0
  | some chunks =>
    if !(hHas headers0 "content-length") && !(teChunked headers0) then
      headerBlock r.method r.path
          (hSet headers0 "content-length" (toString chunks.flatten.length))
        ++ chunks.flatten
    else
      headerBlock r.method r.path headers0
        ++ (if teChunked headers0 then
              (chunks.map encodeChunk).flatten ++ [48, 13, 10, 13, 10]
            else chunks.flatten)

end CS

/--
C7. For every ingress request with a body but neither `Content-Length`
nor `Transfer-Encoding: chunked`, the CS request writer buffers the
whole body, sets `Content-Length` to the buffered size, and the bytes
written to the data channel are the header block (whose
`content-length` entry equals the consumed body size) followed by
exactly the body bytes. -/
theorem c7_unframed_body_buffered (r : CS.RequestData) (chunks : List (List Nat))
    (hbody : r.body = some chunks)
    (hnoCL : hHas r.headers "content-length" = false)
    (hnoTE : CS.teChunked r.headers = false) :
    CS.sendHTTPRequestOverDataChannel r
      = CS.headerBlock r.method r.path
          (hSet (if hHas r.headers "host" then r.headers else hSet r.headers "host" r.host)
            "content-length" (toString chunks.flatten.length))
        ++ chunks.flatten
    ∧ hGet (hSet (if hHas r.headers "host" then r.headers else hSet r.headers "host" r.host)
          "content-length" (toString chunks.flatten.length)) "content-length"
        = some (toString chunks.flatten.length) := by
  have hCL0 : hHas (if hHas r.headers "host" then r.headers else hSet r.headers "host" r.host)
      "content-length" = false := by
    by_cases hh : hHas r.headers "host" = true
    · rw [if_pos hh]
      exact hnoCL
    · rw [if_neg hh, hHas_hSet_ne _ _ _ _ (by decide)]
      exact hnoCL
  have hTE0 : CS.teChunked
      (if hHas r.headers "host" then r.headers else hSet r.headers "host" r.host) = false := by
    by_cases hh : hHas r.headers "host" = true
    · rw [if_pos hh]
      exact hnoTE
    · rw [if_neg hh]
      unfold CS.teChunked at hnoTE ⊢
      rw [hGet_hSet_ne _ _ _ _ (by decide)]
      exact hnoTE
  constructor
  · unfold CS.sendHTTPRequestOverDataChannel
    simp only [hbody, hCL0, hTE0, Bool.not_false, Bool.and_self, if_true, ite_true]
  · exact hGet_hSet_self _ _ _

/-- C7 witness: a two-chunk body `a` + `bc` with no framing headers is
written with `content-length: 3` and the three raw body bytes. -/
theorem c7_unframed_body_buffered_witness :
    CS.sendHTTPRequestOverDataChannel
        ⟨"POST", "/k", "example.com", [("accept", "*/*")], some [[97], [98, 99]]⟩
      = encStr "POST /k HTTP/1.1\r\naccept: */*\r\nhost: example.com\r\ncontent-length: 3\r\n\r\nabc"
    ∧ hGet (hSet (hSet [("accept", "*/*")] "host" "example.com") "content-length" "3")
        "content-length" = some "3" := by
  have h := c7_unframed_body_buffered
      ⟨"POST", "/k", "example.com", [("accept", "*/*")], some [[97], [98, 99]]⟩
      [[97], [98, 99]] rfl (by decide) (by decide)
  constructor
  · rw [h.1]
    decide
  · exact h.2

end Mineflare
